import Mathlib

/-!
Verification of the Haikommit core pipeline (haikommit.py): syllable
counting, git-diff analysis and haiku generation, shallowly embedded over
`List Char` / `String`.  Python strings are `String` (a list of chars in
this Lean version), Python dicts are association lists, regular
expressions are replaced by executable functions implementing the exact
semantics of the concrete patterns appearing in the source.
-/

namespace Haikommit

/-! ### Character helpers (ASCII model of Python `str.lower`, `\w`, `\s`) -/

/-- ASCII lower-case letter test: the characters kept by `re.sub(r'[^a-z]', ...)`. -/
def isLowerAlpha (c : Char) : Bool := decide (97 ≤ c.toNat ∧ c.toNat ≤ 122)

/-- ASCII upper-case letter test. -/
def isUpperAlpha (c : Char) : Bool := decide (65 ≤ c.toNat ∧ c.toNat ≤ 90)

/-- ASCII letter, i.e. the character class `[a-zA-Z]`. -/
def isAsciiAlpha (c : Char) : Bool := isLowerAlpha c || isUpperAlpha c

/-- ASCII digit. -/
def isAsciiDigit (c : Char) : Bool := decide (48 ≤ c.toNat ∧ c.toNat ≤ 57)

/-- The regex word-character class `[a-zA-Z0-9_]` (ASCII model of `\w`). -/
def isWordChar (c : Char) : Bool := isAsciiAlpha c || isAsciiDigit c || c == '_'

/-- First character of an identifier, the class `[a-zA-Z_]`. -/
def isIdentStart (c : Char) : Bool := isAsciiAlpha c || c == '_'

/-- Python whitespace class `\s` (ASCII part). -/
def pyIsSpace (c : Char) : Bool :=
  c == ' ' || c == '\t' || c == '\n' || c == '\r' || c == '\x0b' || c == '\x0c'

/-- ASCII model of Python `str.lower` on a single character. -/
def lowerChar (c : Char) : Char :=
  if isUpperAlpha c then Char.ofNat (c.toNat + 32) else c

/-- Lower-casing a list of characters. -/
def lowerL (l : List Char) : List Char := l.map lowerChar

/-- Lower-casing a string (`str.lower`). -/
def strLower (s : String) : String := ⟨lowerL s.data⟩

/-! ### Generic list utilities shared by the embedding -/

/-- `startsWithL pat l` is true iff `pat` is an initial segment of `l`. -/
def startsWithL : List Char → List Char → Bool
  | [], _ => true
  | _ :: _, [] => false
  | p :: ps, c :: cs => p == c && startsWithL ps cs

/-- `endsWithL pat l`: `pat` is a final segment of `l`. -/
def endsWithL (pat l : List Char) : Bool := startsWithL pat.reverse l.reverse

/-- Substring test (semantics of `re.search` on a literal pattern / `in`). -/
def containsSubL (pat : List Char) : List Char → Bool
  | [] => startsWithL pat []
  | c :: rest => startsWithL pat (c :: rest) || containsSubL pat rest

/-- Index of the first occurrence of `pat` in `l`, if any. -/
def findOcc (pat : List Char) : List Char → Option Nat
  | [] => if startsWithL pat [] then some 0 else none
  | c :: rest =>
    if startsWithL pat (c :: rest) then some 0
    else (findOcc pat rest).map (· + 1)

/-- Python `s.replace(old, new, 1)`: replace the first occurrence only. -/
def replaceFirstL (l pat rep : List Char) : List Char :=
  match findOcc pat l with
  | none => l
  | some i => l.take i ++ rep ++ l.drop (i + pat.length)

/-- Fuelled worker for `replaceAllL`; fuel `≥ l.length` computes the fixpoint
because every step consumes at least one character of `l`. -/
def replaceAllF (pat rep : List Char) : Nat → List Char → List Char
  | 0, l => l
  | _ + 1, [] => []
  | fuel + 1, c :: rest =>
    if pat ≠ [] && startsWithL pat (c :: rest) then
      rep ++ replaceAllF pat rep fuel ((c :: rest).drop pat.length)
    else
      c :: replaceAllF pat rep fuel rest

/-- Python `s.replace(old, new)` for a non-empty `old`: left-to-right,
non-overlapping replacement of every occurrence. -/
def replaceAllL (l pat rep : List Char) : List Char := replaceAllF pat rep l.length l

/-- String version of `replaceAllL`. -/
def strReplace (s pat rep : String) : String := ⟨replaceAllL s.data pat.data rep.data⟩

/-- Fuelled worker for `collapseWs`. -/
def collapseWsF : Nat → List Char → List Char
  | 0, _ => []
  | _ + 1, [] => []
  | fuel + 1, c :: rest =>
    if pyIsSpace c then ' ' :: collapseWsF fuel (rest.dropWhile pyIsSpace)
    else c :: collapseWsF fuel rest

/-- `re.sub(r'\s+', ' ', l)`: collapse every maximal whitespace run to one blank. -/
def collapseWs (l : List Char) : List Char := collapseWsF l.length l

/-- Python `str.strip()`: drop leading and trailing whitespace. -/
def pyStrip (l : List Char) : List Char :=
  ((l.dropWhile pyIsSpace).reverse.dropWhile pyIsSpace).reverse

/-- Fuelled worker for `runs`. -/
def runsF (p : Char → Bool) : Nat → List Char → List (List Char)
  | 0, _ => []
  | _ + 1, [] => []
  | fuel + 1, c :: rest =>
    if p c then
      let run := (c :: rest).takeWhile p
      run :: runsF p fuel ((c :: rest).drop run.length)
    else
      runsF p fuel rest

/-- Maximal runs of characters satisfying `p` (the matches of `re.findall`
on a pattern of the form `[class]+`). -/
def runs (p : Char → Bool) (l : List Char) : List (List Char) := runsF p l.length l

/-- Split a list at every occurrence of a character satisfying `isDelim`,
keeping empty pieces (semantics of `re.split` on a character class). -/
def splitOnPred (isDelim : Char → Bool) : List Char → List (List Char)
  | [] => [[]]
  | c :: rest =>
    if isDelim c then [] :: splitOnPred isDelim rest
    else
      match splitOnPred isDelim rest with
      | h :: t => (c :: h) :: t
      | [] => [[c]]

/-- Index of the last occurrence of `c`, if any (Python `str.rfind`). -/
def lastIdxOf (c : Char) : List Char → Option Nat
  | [] => none
  | d :: rest =>
    match lastIdxOf c rest with
    | some i => some (i + 1)
    | none => if d == c then some 0 else none

/-- Append an element unless it is already present: the body of the Python
`if x not in seen: seen.add(x); out.append(x)` idiom. -/
def dedupAppend [DecidableEq β] (acc : List β) (y : β) : List β :=
  if y ∈ acc then acc else acc ++ [y]

/-- First-seen-order deduplication of a list. -/
def dedupFirstSeen [DecidableEq β] (l : List β) : List β := l.foldl dedupAppend []

/-- Reference characterization of first-seen order, by structural recursion:
keep the head (its first occurrence) and deduplicate the tail with every
later copy of the head removed.  `dedupFirstSeen` (the loop the source
runs) is proved equal to this below. -/
def firstSeen [DecidableEq β] : List β → List β
  | [] => []
  | x :: l => x :: firstSeen (l.filter (fun y => y ≠ x))
termination_by l => l.length
decreasing_by
  simp only [List.length_cons]
  have := List.length_filter_le (fun y => decide (y ≠ x)) l
  omega

/-! ### SyllableCounter -/

/-- The built-in tech dictionary of `SyllableCounter.__init__`. -/
def techDict : List (String × Int) :=
  [("async", 2), ("await", 2), ("const", 1), ("let", 1), ("var", 1),
   ("function", 2), ("class", 1), ("import", 2), ("export", 2),
   ("return", 2), ("lambda", 2), ("def", 1), ("jsx", 3), ("tsx", 3),
   ("api", 3), ("json", 1), ("xml", 3), ("html", 4), ("css", 3),
   ("js", 2), ("ts", 2), ("py", 1), ("npm", 3), ("git", 1),
   ("test", 1), ("tests", 1), ("spec", 1), ("mock", 1),
   ("boolean", 3), ("string", 1), ("integer", 3), ("array", 2),
   ("object", 2), ("null", 1), ("undefined", 4), ("true", 1), ("false", 1),
   ("button", 2), ("component", 3), ("controller", 3), ("model", 2),
   ("view", 1), ("router", 2), ("service", 2), ("utils", 2),
   ("config", 2), ("error", 2), ("token", 2), ("auth", 1),
   ("login", 2), ("logout", 2), ("user", 2), ("admin", 2),
   ("database", 3), ("schema", 2), ("query", 2), ("cache", 1),
   ("redux", 2), ("react", 2), ("vue", 1), ("angular", 3),
   ("typescript", 3), ("javascript", 4), ("python", 2),
   ("docker", 2), ("kubernetes", 4), ("deploy", 2),
   ("build", 1), ("compile", 2), ("bundle", 2), ("webpack", 2),
   ("eslint", 2), ("prettier", 3), ("babel", 2),
   ("readme", 2), ("license", 2), ("changelog", 2),
   ("refactor", 3), ("cleanup", 2), ("optimize", 3),
   ("feature", 2), ("bugfix", 2), ("hotfix", 2), ("patch", 1),
   ("added", 2), ("removed", 2), ("updated", 3), ("fixed", 1),
   ("changed", 1), ("created", 3), ("deleted", 3),
   ("tested", 2), ("passed", 1), ("failed", 1), ("working", 2),
   ("better", 2), ("improved", 2), ("modified", 3), ("complete", 2),
   ("ready", 2), ("apply", 2), ("applied", 2)]

/-- `word.lower()` followed by `re.sub(r'[^a-z]', '', ...)`. -/
def cleanWord (word : String) : List Char := (lowerL word.data).filter isLowerAlpha

/-- Vowel set of the heuristic, including `y`. -/
def isVowel (c : Char) : Bool :=
  c == 'a' || c == 'e' || c == 'i' || c == 'o' || c == 'u' || c == 'y'

/-- Number of transitions into a vowel (`previous_was_vowel` loop). -/
def vowelGroups : List Char → Bool → Nat
  | [], _ => 0
  | c :: rest, prev =>
    (if isVowel c && !prev then 1 else 0) + vowelGroups rest (isVowel c)

/-- `SyllableCounter._heuristic_count` on an already-cleaned word. -/
def heuristicCount (w : List Char) : Int :=
  if w.length ≤ 1 then 1
  else
    let rev := w.reverse
    let s1 : Int := (vowelGroups w false : Nat)
    let s2 : Int := if rev.head? == some 'e' && decide (1 < s1) then s1 - 1 else s1
    let s3 : Int :=
      if startsWithL [ 'e', 'l' ] rev && decide (2 < w.length) &&
          !(match rev.get? 2 with | some c => isVowel c | none => true) then s2 + 1
      else s2
    max 1 s3

/-- `SyllableCounter.count_syllables`: override dictionary, then the built-in
tech dictionary, then the heuristic; 0 when nothing alphabetic is left. -/
def countSyllables (cd : List (String × Int)) (word : String) : Int :=
  let wc := cleanWord word
  if wc.isEmpty then 0
  else
    match List.lookup (String.mk wc) cd with
    | some v => v
    | none =>
      match List.lookup (String.mk wc) techDict with
      | some v => v
      | none => heuristicCount wc

/-- `SyllableCounter.count_phrase`: sum of syllables over the maximal
alphabetic runs of the phrase (`re.findall(r'[a-zA-Z]+', phrase)`). -/
def countPhrase (cd : List (String × Int)) (phrase : String) : Int :=
  ((runs isAsciiAlpha phrase.data).map (fun w => countSyllables cd (String.mk w))).sum

/-! ### DiffAnalyzer: intent patterns

The intent pattern lists of the source contain regexes of exactly three
shapes: a word with `\b` boundaries on both sides, a literal substring,
and a literal anchored by `$` at the end of the text (`re.search` is used
without `re.MULTILINE`, so `$` matches only at the end of the whole text
or just before one final newline). -/

/-- The three regex shapes used by the intent pattern lists. -/
inductive Pat where
  | word (w : String)
  | sub (p : String)
  | endAnchor (p : String)

/-- Is the optional character a `\b`-boundary partner (not a word char)? -/
def boundaryOk : Option Char → Bool
  | none => true
  | some c => !isWordChar c

/-- Does `w` occur starting here, with a word boundary after it? -/
def wordAtHere (w l : List Char) : Bool :=
  startsWithL w l && boundaryOk (l.drop w.length).head?

/-- Scan for an occurrence of `w` with `\b` boundaries on both sides; `prev`
is the character immediately before the current position. -/
def wbAux (w : List Char) : Option Char → List Char → Bool
  | _, [] => false
  | prev, c :: rest => (boundaryOk prev && wordAtHere w (c :: rest)) || wbAux w (some c) rest

/-- `re.search` semantics for the three pattern shapes. -/
def matchPat (s : String) : Pat → Bool
  | .word w => wbAux w.data none s.data
  | .sub p => containsSubL p.data s.data
  | .endAnchor p => endsWithL p.data s.data || endsWithL (p.data ++ [ '\n' ]) s.data

/-- `DiffAnalyzer.FIX_PATTERNS`. -/
def FIX_PATTERNS : List Pat :=
  [.word "fix", .word "bug", .word "patch", .word "error",
   .word "issue", .word "repair", .word "correct"]

/-- `DiffAnalyzer.FEATURE_PATTERNS`. -/
def FEATURE_PATTERNS : List Pat :=
  [.word "feat", .word "add", .word "create", .word "new",
   .word "implement", .word "introduce"]

/-- `DiffAnalyzer.REFACTOR_PATTERNS`. -/
def REFACTOR_PATTERNS : List Pat :=
  [.word "refactor", .word "cleanup", .word "style",
   .word "restructure", .word "improve", .word "optimize"]

/-- `DiffAnalyzer.TEST_PATTERNS` (`\btest\b`, `\.spec\.`, `\.test\.`, `__test__`). -/
def TEST_PATTERNS : List Pat :=
  [.word "test", .sub ".spec.", .sub ".test.", .sub "__test__"]

/-- `DiffAnalyzer.DOCS_PATTERNS` (`\bdoc\b`, `\breadme\b`, `\.md$`, `\bcomment\b`). -/
def DOCS_PATTERNS : List Pat :=
  [.word "doc", .word "readme", .endAnchor ".md", .word "comment"]

/-- `any(re.search(pattern, s) for pattern in ps)`. -/
def anyPat (ps : List Pat) (s : String) : Bool := ps.any (matchPat s)

/-- Count of `re.findall(r'^\+[^+]', diff, re.MULTILINE)`-style matches:
positions at a line start holding `mark` followed by a character other
than `mark` (the following character may be the newline itself).
`atStart` says whether the current position is a line start. -/
def countMark (mark : Char) : List Char → Bool → Nat
  | [], _ => 0
  | [_], _ => 0
  | c :: d :: rest, atStart =>
    (if atStart && c == mark && d != mark then 1 else 0) + countMark mark (d :: rest) (c == '\n')

/-- Lines beginning with a single `+` (additions), per the source regex. -/
def additions (diff : String) : Nat := countMark '+' diff.data true

/-- Lines beginning with a single `-` (deletions), per the source regex. -/
def deletions (diff : String) : Nat := countMark '-' diff.data true

/-- `DiffAnalyzer._detect_intent`. -/
def detectIntent (diff : String) : String :=
  let dl := strLower diff
  if anyPat TEST_PATTERNS dl then "test"
  else if anyPat DOCS_PATTERNS dl then "docs"
  else if anyPat FIX_PATTERNS dl then "fix"
  else if anyPat FEATURE_PATTERNS dl then "feature"
  else if anyPat REFACTOR_PATTERNS dl then "refactor"
  else if deletions diff * 2 < additions diff then "feature"
  else if additions diff * 2 < deletions diff then "remove"
  else "update"

/-! ### DiffAnalyzer: file extraction -/

/-- One attempted match of `(?:diff --git a/|[\+\-]{3} [ab]/)([^\s]+)` at the
current position (`c :: rest`); returns the capture and the remaining text
after the whole match.  The alternation's two prefixes cannot both apply. -/
def matchFileAt (c : Char) (rest : List Char) : Option (List Char × List Char) :=
  let s := c :: rest
  if startsWithL ("diff --git a/".data) s then
    let t := s.drop ("diff --git a/".data).length
    let cap := t.takeWhile (fun d => !pyIsSpace d)
    if cap.isEmpty then none else some (cap, t.drop cap.length)
  else
    match s with
    | m1 :: m2 :: m3 :: ' ' :: ab :: '/' :: t =>
      if (m1 == '+' || m1 == '-') && (m2 == '+' || m2 == '-') && (m3 == '+' || m3 == '-') &&
          (ab == 'a' || ab == 'b') then
        let cap := t.takeWhile (fun d => !pyIsSpace d)
        if cap.isEmpty then none else some (cap, t.drop cap.length)
      else none
    | _ => none

/-- Fuelled left-to-right scan with a matcher that consumes its match
(non-overlapping `re.findall`); fuel `≥ length` computes the full scan. -/
def scanWithF (m : Char → List Char → Option (List Char × List Char)) :
    Nat → List Char → List (List Char)
  | 0, _ => []
  | _ + 1, [] => []
  | fuel + 1, c :: rest =>
    match m c rest with
    | some (cap, rem) => cap :: scanWithF m fuel rem
    | none => scanWithF m fuel rest

/-- All captures of the file-header pattern, in order. -/
def fileCaptures (diff : String) : List String :=
  (scanWithF matchFileAt diff.data.length diff.data).map String.mk

/-- `os.path.basename`: the part after the last `/`. -/
def basename (p : String) : String := ⟨(p.data.reverse.takeWhile (fun c => c != '/')).reverse⟩

/-- `DiffAnalyzer._extract_files`: keep captures other than `/dev/null`,
reduce to base names, first occurrence of each base name only. -/
def extractFiles (diff : String) : List String :=
  (fileCaptures diff).foldl
    (fun acc p => if p = "/dev/null" then acc else dedupAppend acc (basename p)) []

/-! ### DiffAnalyzer: keyword extraction -/

/-- The delimiter class of the filename split: dot, underscore, dash, slash. -/
def isKwDelim (c : Char) : Bool := c == '.' || c == '_' || c == '-' || c == '/'

/-- Keywords from file names: fragments longer than 2 characters, lowered. -/
def kwFromFiles (files : List String) : List (List Char) :=
  files.flatMap (fun f =>
    (((splitOnPred isKwDelim f.data).filter (fun p => 2 < p.length)).map lowerL))

/-- The declaration keywords of the function/class-name pattern. -/
def declKws : List (List Char) :=
  ["function".data, "def".data, "class".data, "const".data, "let".data, "var".data]

/-- One attempted match of
`(?:function|def|class|const|let|var)\s+([a-zA-Z_][a-zA-Z0-9_]*)` at the
current position; no keyword is a prefix of another, so at most one
alternative applies. -/
def matchDeclAt (c : Char) (rest : List Char) : Option (List Char × List Char) :=
  let s := c :: rest
  match declKws.findSome? (fun k => if startsWithL k s then some k else none) with
  | none => none
  | some k =>
    let t := s.drop k.length
    let sp := t.takeWhile pyIsSpace
    if sp.isEmpty then none
    else
      let u := t.drop sp.length
      match u with
      | d :: _ =>
        if isIdentStart d then
          let cap := u.takeWhile isWordChar
          some (cap, u.drop cap.length)
        else none
      | [] => none

/-- Captures of the declaration-identifier pattern over the whole diff. -/
def declIdents (diff : String) : List (List Char) :=
  scanWithF matchDeclAt diff.data.length diff.data

/-- Keywords from declarations: identifiers longer than 2 characters, lowered. -/
def kwFromDecls (diff : String) : List (List Char) :=
  ((declIdents diff).filter (fun f => 2 < f.length)).map lowerL

/-- Captured line bodies of `re.findall(r'^\+(.*)$', diff, re.MULTILINE)`:
the text after the `+` of every line starting with `+`. -/
def addedLines (diff : String) : List (List Char) :=
  (splitOnPred (fun c => c == '\n') diff.data).filterMap
    (fun l => match l with | '+' :: t => some t | _ => none)

/-- Matches of `\b([a-zA-Z_][a-zA-Z0-9_]{2,})\b` in a single line: maximal
word-character runs of length at least 3 whose first character is a letter
or underscore. -/
def identsOf (l : List Char) : List (List Char) :=
  (runs isWordChar l).filter
    (fun r => decide (3 ≤ r.length) && (match r with | c :: _ => isIdentStart c | [] => false))

/-- Keywords from added lines: first 3 identifiers per line, lowered. -/
def kwFromAdded (diff : String) : List (List Char) :=
  (addedLines diff).flatMap (fun l => ((identsOf l).take 3).map lowerL)

/-- `DiffAnalyzer._extract_keywords`.  The source collects the keywords in a
Python `set` whose iteration order is unspecified before truncating with
`[:10]`; the embedding fixes insertion order (files, then declarations,
then added lines) as the canonical order.  Every property proved below
(size cap, dedup, lower case, minimum length) is independent of that
choice of order. -/
def extractKeywords (diff : String) : List String :=
  ((dedupFirstSeen
      (kwFromFiles (extractFiles diff) ++ kwFromDecls diff ++ kwFromAdded diff)).take 10).map
    String.mk

/-- The analysis record returned by `DiffAnalyzer.analyze`. -/
structure AnalysisRecord where
  intent : String
  files : List String
  keywords : List String

/-- `DiffAnalyzer.analyze`. -/
def analyze (diff : String) : AnalysisRecord :=
  ⟨detectIntent diff, extractFiles diff, extractKeywords diff⟩

/-! ### HaikuGenerator -/

/-- `os.path.splitext(s)[0]`: cut at the last dot that comes after the last
slash and has at least one non-dot character between them. -/
def splitextBase (s : String) : String :=
  let cs := s.data
  match lastIdxOf '.' cs with
  | none => s
  | some di =>
    let start := match lastIdxOf '/' cs with | none => 0 | some j => j + 1
    if start ≤ di ∧ ((cs.drop start).take (di - start)).any (fun c => c != '.') then
      ⟨cs.take di⟩
    else s

/-- `HaikuGenerator.templates` for intent "fix". -/
def fixTemplates : List (String × String × String) :=
  [("{problem}", "{action}", "{result}"),
   ("Bug found in {file}", "{action} applied to fix", "{result}"),
   ("{problem} no more", "{action} solves the issue", "{result}")]

/-- `HaikuGenerator.templates` for intent "feature". -/
def featureTemplates : List (String × String × String) :=
  [("{feature} added", "{description}", "Now complete"),
   ("New {feature}", "{description}", "{benefit}"),
   ("{feature} is here", "{description}", "Ready to use")]

/-- `HaikuGenerator.templates` for intent "refactor". -/
def refactorTemplates : List (String × String × String) :=
  [("Code cleaned up now", "{description}", "{benefit}"),
   ("Refactored {file}", "{description}", "Much better now"),
   ("{description}", "Structure improved throughout", "Cleaner code now")]

/-- `HaikuGenerator.templates` for intent "test". -/
def testTemplates : List (String × String × String) :=
  [("Tests added here", "{description}", "All passing now"),
   ("New test coverage", "{description}", "Safety improved"),
   ("{description}", "Validating the new code", "Tests all pass now")]

/-- `HaikuGenerator.templates` for intent "docs". -/
def docsTemplates : List (String × String × String) :=
  [("Documentation", "{description}", "Now up to date"),
   ("README updated", "{description}", "Much clearer now"),
   ("{description}", "Documentation improved here", "Better explained")]

/-- `HaikuGenerator.templates` for intent "update". -/
def updateTemplates : List (String × String × String) :=
  [("Updated {file}", "{description}", "Changes applied"),
   ("{description}", "Modified to improve flow", "Update complete"),
   ("Code updated now", "{description}", "Working better")]

/-- `HaikuGenerator.templates` for intent "remove". -/
def removeTemplates : List (String × String × String) :=
  [("Removed {file}", "{description}", "Cleanup complete"),
   ("{description}", "Unused code removed now", "Cleaner codebase"),
   ("Deleted old code", "{description}", "Simpler now")]

/-- `self.templates.get(intent, self.templates['update'])`. -/
def templatesFor (intent : String) : List (String × String × String) :=
  if intent = "fix" then fixTemplates
  else if intent = "feature" then featureTemplates
  else if intent = "refactor" then refactorTemplates
  else if intent = "test" then testTemplates
  else if intent = "docs" then docsTemplates
  else if intent = "update" then updateTemplates
  else if intent = "remove" then removeTemplates
  else updateTemplates

/-- The substitution mapping of `_try_template`, in the dict's insertion
order (Python dicts iterate in insertion order). -/
def substitutions (kw1 kw2 fileBase : String) : List (String × String) :=
  [("{problem}", kw1 ++ " error"),
   ("{action}", "Fixed " ++ kw2),
   ("{result}", "Working now"),
   ("{feature}", kw1),
   ("{description}", kw2 ++ " in " ++ fileBase),
   ("{benefit}", "Improved code"),
   ("{file}", fileBase)]

/-- Apply every substitution to one template line (`line.replace(var, value)`). -/
def fillLine (kw1 kw2 fileBase line : String) : String :=
  (substitutions kw1 kw2 fileBase).foldl (fun acc pv => strReplace acc pv.1 pv.2) line

/-- String versions of the small helpers used by `_adjust_syllables`. -/
def containsS (pat s : String) : Bool := containsSubL pat.data s.data

/-- `line.endswith(pat)`. -/
def endsWithS (s pat : String) : Bool := endsWithL pat.data s.data

/-- `len(line.split()) > 0`: the line has at least one non-whitespace char. -/
def hasNonWs (s : String) : Bool := s.data.any (fun c => !pyIsSpace c)

/-- The article-removal step of `_adjust_syllables`: drop the first
occurrence of " the ", else " a ", else " an ", then collapse whitespace
runs and strip. -/
def removeArticle (line : String) : String :=
  if containsS " the " line then
    ⟨pyStrip (collapseWs (replaceFirstL line.data (" the ").data (" ").data))⟩
  else if containsS " a " line then
    ⟨pyStrip (collapseWs (replaceFirstL line.data (" a ").data (" ").data))⟩
  else if containsS " an " line then
    ⟨pyStrip (collapseWs (replaceFirstL line.data (" an ").data (" ").data))⟩
  else line

/-- `HaikuGenerator._adjust_syllables`: returns the adjusted line, or `none`
when the line cannot be brought within 1 syllable of the target. -/
def adjustSyllables (cd : List (String × Int)) (line : String) (target : Int) : Option String :=
  let current := countPhrase cd line
  if current = target then some line
  else if target < current then
    let line2 := removeArticle line
    let current2 := countPhrase cd line2
    if current2 = target then some line2
    else if (current2 - target).natAbs ≤ 1 then some line2
    else none
  else
    if hasNonWs line ∧ target - current = 1 ∧ ¬ endsWithS line " now" = true ∧
        countPhrase cd (line ++ " now") = target then
      some (line ++ " now")
    else if (current - target).natAbs ≤ 1 then some line
    else none

/-- `HaikuGenerator._try_template`: fill the three lines and adjust them to
the 5-7-5 targets; fail if any line fails. -/
def tryTemplate (cd : List (String × Int)) (t : String × String × String)
    (kw1 kw2 fileBase : String) : Option (List String) :=
  match adjustSyllables cd (fillLine kw1 kw2 fileBase t.1) 5 with
  | none => none
  | some a =>
    match adjustSyllables cd (fillLine kw1 kw2 fileBase t.2.1) 7 with
    | none => none
    | some b =>
      match adjustSyllables cd (fillLine kw1 kw2 fileBase t.2.2) 5 with
      | none => none
      | some c => some [a, b, c]

/-- Python truthiness of `adjusted or default`: `None` and the empty string
both fall back to the default. -/
def orDefault (o : Option String) (d : String) : String :=
  match o with
  | none => d
  | some l => if l = "" then d else l

/-- `HaikuGenerator._generate_simple_haiku`: the canned per-intent fallback,
each line adjusted and guarded by a fixed literal default. -/
def simpleHaiku (cd : List (String × Int)) (intent subject keyword : String) : List String :=
  let t :=
    if intent = "fix" then
      ("Bug fixed in code", "Fixed " ++ keyword ++ " " ++ subject, "Working well now")
    else if intent = "feature" then
      ("Added " ++ keyword, "New " ++ subject ++ " is ready now", "Feature complete")
    else if intent = "refactor" then
      ("Code cleaned up now", "Refactored " ++ subject, "Better code now")
    else if intent = "test" then
      ("Tests added here", "Testing " ++ subject ++ " now", "All passing now")
    else if intent = "docs" then
      ("Docs updated now", "Improved " ++ subject ++ " readme", "Much clearer now")
    else if intent = "remove" then
      ("Removed old code", "Deleted " ++ subject ++ " file", "Cleanup complete")
    else
      ("Code updated now", "Modified " ++ subject, "Changes applied")
  [orDefault (adjustSyllables cd t.1 5) "Code changes made here",
   orDefault (adjustSyllables cd t.2.1 7) "Modified to work better now",
   orDefault (adjustSyllables cd t.2.2 5) "Working well now"]

/-- `keywords[0] if len(keywords) > 0 else 'change'` and friends. -/
def firstOr (l : List String) (d : String) : String :=
  match l with | [] => d | x :: _ => x

/-- `keywords[1] if len(keywords) > 1 else 'update'`. -/
def secondOr (l : List String) (d : String) : String :=
  match l with | _ :: y :: _ => y | _ => d

/-- `os.path.splitext(file_name)[0] if files else 'file'`. -/
def fileBaseOf (files : List String) : String :=
  match files with | [] => "file" | f :: _ => splitextBase f

/-- `HaikuGenerator._build_haiku`: try the intent's templates in order,
fall back to the simple haiku.  (`file_name` is also resolved by the
source but is never used by the substitutions.) -/
def buildHaiku (cd : List (String × Int)) (intent : String)
    (files keywords : List String) : List String :=
  let fileBase := fileBaseOf files
  let kw1 := firstOr keywords "change"
  let kw2 := secondOr keywords "update"
  match (templatesFor intent).findSome? (fun t => tryTemplate cd t kw1 kw2 fileBase) with
  | some lines => lines
  | none => simpleHaiku cd intent fileBase kw1

/-- `'\n'.join(lines)`. -/
def joinNl : List String → String
  | [] => ""
  | [x] => x
  | x :: xs => x ++ "\n" ++ joinNl xs

/-- The three lines produced by `generate` before joining. -/
def haikuLines (cd : List (String × Int)) (a : AnalysisRecord) : List String :=
  buildHaiku cd a.intent a.files a.keywords

/-- `HaikuGenerator.generate`. -/
def generate (cd : List (String × Int)) (a : AnalysisRecord) : String :=
  joinNl (haikuLines cd a)

/-- Structural split of a string at newlines (its newline-separated lines). -/
def splitNlS (s : String) : List String :=
  (splitOnPred (fun c => c == '\n') s.data).map String.mk

/-- No newline character occurs in the string. -/
def nlFree (s : String) : Prop := '\n' ∉ s.data

instance (s : String) : Decidable (nlFree s) := by unfold nlFree; infer_instance

/-! ### Claim-transcribed variants of the adjustment procedure (for C3) -/

/-- Transcription of the claim's description of the syllable-adjustment
procedure, word for word: when the count exceeds the target remove an
article and re-measure; when the count is exactly one below the target and
the line does not already end with " now", append " now" and accept that
exactly on target; accept the (possibly modified) line iff its count is
within 1 of the target.  (Unlike the source, this version has no guard
requiring the line to contain a word before appending " now".) -/
def adjustSpec (cd : List (String × Int)) (line : String) (target : Int) : Option String :=
  let current := countPhrase cd line
  if target < current then
    let line2 := removeArticle line
    let current2 := countPhrase cd line2
    if (current2 - target).natAbs ≤ 1 then some line2 else none
  else if current = target then some line
  else
    if target - current = 1 ∧ ¬ endsWithS line " now" = true ∧
        countPhrase cd (line ++ " now") = target then
      some (line ++ " now")
    else if (current - target).natAbs ≤ 1 then some line
    else none

/-- The claim's procedure amended minimally: " now" is appended only when
the line also contains at least one non-whitespace character (the
`len(line.split()) > 0` guard of the source). -/
def adjustSpecAmended (cd : List (String × Int)) (line : String) (target : Int) : Option String :=
  let current := countPhrase cd line
  if target < current then
    let line2 := removeArticle line
    let current2 := countPhrase cd line2
    if (current2 - target).natAbs ≤ 1 then some line2 else none
  else if current = target then some line
  else
    if hasNonWs line ∧ target - current = 1 ∧ ¬ endsWithS line " now" = true ∧
        countPhrase cd (line ++ " now") = target then
      some (line ++ " now")
    else if (current - target).natAbs ≤ 1 then some line
    else none

/-! ## Lemmas: characters and lower-casing -/

theorem isLowerAlpha_lowerChar (c : Char) : isLowerAlpha (lowerChar c) = isAsciiAlpha c := by
  unfold lowerChar isAsciiAlpha
  by_cases h : isUpperAlpha c = true
  · rw [if_pos h, h, Bool.or_true]
    unfold isUpperAlpha at h
    rw [decide_eq_true_iff] at h
    obtain ⟨h1, h2⟩ := h
    generalize hg : c.toNat = n at h1 h2 ⊢
    interval_cases n <;> decide
  · rw [if_neg h]
    rw [Bool.not_eq_true] at h
    rw [h, Bool.or_false]

theorem isUpperAlpha_lowerChar (c : Char) : isUpperAlpha (lowerChar c) = false := by
  unfold lowerChar
  by_cases h : isUpperAlpha c = true
  · rw [if_pos h]
    unfold isUpperAlpha at h ⊢
    rw [decide_eq_true_iff] at h
    obtain ⟨h1, h2⟩ := h
    generalize hg : c.toNat = n at h1 h2 ⊢
    interval_cases n <;> decide
  · rw [if_neg h, Bool.not_eq_true] at *
    exact h

theorem cleanWord_eq_nil_iff (w : String) :
    cleanWord w = [] ↔ ∀ c ∈ w.data, isAsciiAlpha c = false := by
  unfold cleanWord lowerL
  rw [List.filter_eq_nil_iff]
  constructor
  · intro h c hc
    have h2 := h (lowerChar c) (List.mem_map_of_mem _ hc)
    rw [isLowerAlpha_lowerChar] at h2
    simpa using h2
  · intro h a ha
    rw [List.mem_map] at ha
    obtain ⟨c, hc, rfl⟩ := ha
    rw [isLowerAlpha_lowerChar]
    simp [h c hc]

/-! ## Lemmas: association-list lookup and the dictionaries -/

theorem mem_of_lookupEq {cd : List (String × Int)} {k : String} {v : Int}
    (h : List.lookup k cd = some v) : (k, v) ∈ cd := by
  induction cd with
  | nil => simp [List.lookup] at h
  | cons p rest ih =>
    obtain ⟨k', v'⟩ := p
    rw [List.lookup] at h
    by_cases hk : k = k'
    · subst hk
      simp at h
      simp [h]
    · have hb : (k == k') = false := beq_false_of_ne hk
      rw [hb] at h
      exact List.mem_cons_of_mem _ (ih h)

theorem techDict_pos : ∀ p ∈ techDict, 1 ≤ p.2 := by decide

theorem one_le_heuristicCount (w : List Char) : 1 ≤ heuristicCount w := by
  unfold heuristicCount
  split
  · exact le_refl 1
  · exact le_max_left 1 _

theorem one_le_countSyllables (cd : List (String × Int)) (hpos : ∀ p ∈ cd, 0 < p.2)
    (w : String) (hw : ¬ cleanWord w = []) : 1 ≤ countSyllables cd w := by
  unfold countSyllables
  rw [if_neg (by simpa [List.isEmpty_iff] using hw)]
  cases h1 : List.lookup (String.mk (cleanWord w)) cd with
  | some v =>
    have := hpos _ (mem_of_lookupEq h1)
    simpa using this
  | none =>
    cases h2 : List.lookup (String.mk (cleanWord w)) techDict with
    | some v =>
      have := techDict_pos _ (mem_of_lookupEq h2)
      simpa using this
    | none => exact one_le_heuristicCount _

/-! ## Claim theorems for the syllable counter -/

/-- C9: assuming every override value is positive, `countSyllables` returns
at least 1 on any input containing an ASCII letter, and returns 0 exactly
when the input contains no letter. -/
theorem C9_countSyllables_total (cd : List (String × Int)) (hpos : ∀ p ∈ cd, 0 < p.2)
    (w : String) :
    ((∃ c ∈ w.data, isAsciiAlpha c = true) → 1 ≤ countSyllables cd w) ∧
    (countSyllables cd w = 0 ↔ ¬ ∃ c ∈ w.data, isAsciiAlpha c = true) := by
  have key : cleanWord w = [] ↔ ¬ ∃ c ∈ w.data, isAsciiAlpha c = true := by
    rw [cleanWord_eq_nil_iff]
    constructor
    · intro h ⟨c, hc, hca⟩
      rw [h c hc] at hca
      cases hca
    · intro h c hc
      by_contra hcc
      exact h ⟨c, hc, by simpa using hcc⟩
  constructor
  · intro hex
    exact one_le_countSyllables cd hpos w (fun hnil => (key.mp hnil) hex)
  · constructor
    · intro h0
      by_contra hex
      have h1 := one_le_countSyllables cd hpos w (fun hnil => (key.mp hnil) hex)
      omega
    · intro hno
      have hnil : cleanWord w = [] := key.mpr hno
      unfold countSyllables
      rw [if_pos (by simpa [List.isEmpty_iff] using hnil)]

/-- Witness for C9 at concrete inputs. -/
theorem C9_witness :
    1 ≤ countSyllables [("zzz", 4)] "bug!" ∧ countSyllables [("zzz", 4)] "123" = 0 :=
  ⟨(C9_countSyllables_total [("zzz", 4)] (by decide) "bug!").1 (by decide),
   (C9_countSyllables_total [("zzz", 4)] (by decide) "123").2.mpr (by decide)⟩

/-- C6 counterexample: the empty cleaned word is a key of the override
dictionary, yet `countSyllables` returns 0 (the source returns 0 for an
empty cleaned word before consulting the override dictionary). -/
theorem C6_cex :
    countSyllables [("", 5)] "123" = 0 ∧
    List.lookup (String.mk (cleanWord "123")) [("", 5)] = some 5 ∧
    countSyllables [("", 5)] "123" ≠ 5 := by decide

/-- C6 (amended with a non-empty cleaned word for the override step):
override value returned verbatim when the cleaned word is a key; else the
built-in dictionary value; the heuristic only when both lookups miss;
scenario: override testword -> 3 wins. -/
theorem C6_ordering :
    (∀ (cd : List (String × Int)) (w : String) (v : Int), cleanWord w ≠ [] →
        List.lookup (String.mk (cleanWord w)) cd = some v → countSyllables cd w = v) ∧
    (∀ (cd : List (String × Int)) (w : String) (v : Int),
        List.lookup (String.mk (cleanWord w)) cd = none →
        List.lookup (String.mk (cleanWord w)) techDict = some v → countSyllables cd w = v) ∧
    (∀ (cd : List (String × Int)) (w : String), cleanWord w ≠ [] →
        List.lookup (String.mk (cleanWord w)) cd = none →
        List.lookup (String.mk (cleanWord w)) techDict = none →
        countSyllables cd w = heuristicCount (cleanWord w)) ∧
    countSyllables [("testword", 3)] "testword" = 3 := by
  refine ⟨?_, ?_, ?_, by decide⟩
  · intro cd w v hne hl
    unfold countSyllables
    rw [if_neg (by simpa [List.isEmpty_iff] using hne), hl]
  · intro cd w v hl1 hl2
    by_cases hne : cleanWord w = []
    · rw [hne] at hl2
      have : List.lookup (String.mk ([] : List Char)) techDict = none := by decide
      rw [this] at hl2
      cases hl2
    · unfold countSyllables
      rw [if_neg (by simpa [List.isEmpty_iff] using hne), hl1, hl2]
  · intro cd w hne hl1 hl2
    unfold countSyllables
    rw [if_neg (by simpa [List.isEmpty_iff] using hne), hl1, hl2]

/-- Witness for C6 at the scenario input. -/
theorem C6_witness : countSyllables [("testword", 3)] "testword" = 3 :=
  C6_ordering.1 [("testword", 3)] "testword" 3 (by decide) (by decide)

/-! ## Claim theorems for intent detection -/

/-- C2: the pattern groups are tested against the lowercased diff in the
strict priority order test, docs, fix, feature, refactor, first match
wins; a diff adding a new spec.js file is "test" although a feature
signal (the word "new") is present. -/
theorem C2_intent_priority :
    (∀ d, anyPat TEST_PATTERNS (strLower d) = true → (analyze d).intent = "test") ∧
    (∀ d, anyPat TEST_PATTERNS (strLower d) = false →
        anyPat DOCS_PATTERNS (strLower d) = true → (analyze d).intent = "docs") ∧
    (∀ d, anyPat TEST_PATTERNS (strLower d) = false →
        anyPat DOCS_PATTERNS (strLower d) = false →
        anyPat FIX_PATTERNS (strLower d) = true → (analyze d).intent = "fix") ∧
    (∀ d, anyPat TEST_PATTERNS (strLower d) = false →
        anyPat DOCS_PATTERNS (strLower d) = false →
        anyPat FIX_PATTERNS (strLower d) = false →
        anyPat FEATURE_PATTERNS (strLower d) = true → (analyze d).intent = "feature") ∧
    (∀ d, anyPat TEST_PATTERNS (strLower d) = false →
        anyPat DOCS_PATTERNS (strLower d) = false →
        anyPat FIX_PATTERNS (strLower d) = false →
        anyPat FEATURE_PATTERNS (strLower d) = false →
        anyPat REFACTOR_PATTERNS (strLower d) = true → (analyze d).intent = "refactor") ∧
    (analyze "diff --git a/foo.spec.js b/foo.spec.js\n+new spec file\n").intent = "test" ∧
    anyPat FEATURE_PATTERNS (strLower "diff --git a/foo.spec.js b/foo.spec.js\n+new spec file\n")
      = true := by
  refine ⟨?_, ?_, ?_, ?_, ?_, by decide, by decide⟩
  · intro d h1
    simp [analyze, detectIntent, h1]
  · intro d h1 h2
    simp [analyze, detectIntent, h1, h2]
  · intro d h1 h2 h3
    simp [analyze, detectIntent, h1, h2, h3]
  · intro d h1 h2 h3 h4
    simp [analyze, detectIntent, h1, h2, h3, h4]
  · intro d h1 h2 h3 h4 h5
    simp [analyze, detectIntent, h1, h2, h3, h4, h5]

/-- Witness for C2: a diff matching the test group is classified "test". -/
theorem C2_witness : (analyze "run test suite").intent = "test" :=
  C2_intent_priority.1 "run test suite" (by decide)

/-- C4 counterexample: a diff that changes only `notes.md` (a file whose
name ends in ".md") and matches no test pattern, yet is classified
"feature", because the source's `.md` pattern is anchored by `$` to the
end of the whole diff text, not to the file name. -/
theorem C4_cex :
    "notes.md" ∈ (analyze "diff --git a/notes.md b/notes.md\n+++ b/notes.md\n+hello world\n").files ∧
    endsWithS "notes.md" ".md" = true ∧
    anyPat TEST_PATTERNS
      (strLower "diff --git a/notes.md b/notes.md\n+++ b/notes.md\n+hello world\n") = false ∧
    (analyze "diff --git a/notes.md b/notes.md\n+++ b/notes.md\n+hello world\n").intent
      = "feature" := by decide

/-- C4 (amended): when no test pattern matches and a docs pattern matches
the lowercased diff — the word "doc", "readme" or "comment", or the text
itself ending in ".md" (optionally before one final newline) — the intent
is "docs"; the README scenario is classified "docs" via the readme word
pattern. -/
theorem C4_docs_amended :
    (∀ d, anyPat TEST_PATTERNS (strLower d) = false →
        anyPat DOCS_PATTERNS (strLower d) = true → (analyze d).intent = "docs") ∧
    (analyze "diff --git a/README.md b/README.md\n+## Overview\n").intent = "docs" := by
  refine ⟨?_, by decide⟩
  intro d h1 h2
  simp [analyze, detectIntent, h1, h2]

/-- Witness for C4: a diff whose text ends in ".md" is classified docs. -/
theorem C4_witness : (analyze "+++ b/notes.md").intent = "docs" :=
  C4_docs_amended.1 "+++ b/notes.md" (by decide) (by decide)

/-- C5: when none of the five pattern groups matches, the intent comes from
the addition/deletion line counts of the source regexes, and the intent is
never the initial default "change". -/
theorem C5_fallback_counts :
    (∀ d, anyPat TEST_PATTERNS (strLower d) = false →
        anyPat DOCS_PATTERNS (strLower d) = false →
        anyPat FIX_PATTERNS (strLower d) = false →
        anyPat FEATURE_PATTERNS (strLower d) = false →
        anyPat REFACTOR_PATTERNS (strLower d) = false →
        (analyze d).intent =
          (if deletions d * 2 < additions d then "feature"
           else if additions d * 2 < deletions d then "remove"
           else "update")) ∧
    (∀ d, (analyze d).intent ≠ "change") := by
  constructor
  · intro d h1 h2 h3 h4 h5
    simp [analyze, detectIntent, h1, h2, h3, h4, h5]
  · intro d
    simp only [analyze, detectIntent]
    split_ifs <;> decide

/-- Witness for C5: a pattern-free diff with three added lines. -/
theorem C5_witness : (analyze "+x\n+y\n+z\n").intent = "feature" := by
  have h := C5_fallback_counts.1 "+x\n+y\n+z\n" (by decide) (by decide) (by decide)
    (by decide) (by decide)
  rw [h]
  decide

/-! ## Lemmas: first-seen deduplication folds -/

theorem nodup_foldl_dedupAppend [DecidableEq β] :
    ∀ (l acc : List β), acc.Nodup → (l.foldl dedupAppend acc).Nodup := by
  intro l
  induction l with
  | nil => intro acc h; simpa using h
  | cons x rest ih =>
    intro acc h
    rw [List.foldl_cons]
    apply ih
    unfold dedupAppend
    split
    · exact h
    · rename_i hx
      rw [List.nodup_append]
      exact ⟨h, List.nodup_singleton x, by simpa [List.disjoint_singleton] using hx⟩

theorem mem_foldl_dedupAppend [DecidableEq β] :
    ∀ (l acc : List β) (x : β), x ∈ l.foldl dedupAppend acc ↔ x ∈ acc ∨ x ∈ l := by
  intro l
  induction l with
  | nil => intro acc x; simp
  | cons y rest ih =>
    intro acc x
    rw [List.foldl_cons, ih]
    unfold dedupAppend
    split
    · rename_i hy
      simp only [List.mem_cons]
      constructor
      · rintro (h | h)
        · exact Or.inl h
        · exact Or.inr (Or.inr h)
      · rintro (h | rfl | h)
        · exact Or.inl h
        · exact Or.inl hy
        · exact Or.inr h
    · simp only [List.mem_append, List.mem_singleton, List.mem_cons]
      tauto

theorem foldl_dedupAppend_extend [DecidableEq β] :
    ∀ (l acc : List β), ∃ t, l.foldl dedupAppend acc = acc ++ t ∧ t.Sublist l := by
  intro l
  induction l with
  | nil => intro acc; exact ⟨[], by simp, List.nil_sublist _⟩
  | cons y rest ih =>
    intro acc
    rw [List.foldl_cons]
    by_cases hy : y ∈ acc
    · have hd : dedupAppend acc y = acc := by unfold dedupAppend; rw [if_pos hy]
      rw [hd]
      obtain ⟨t, h1, h2⟩ := ih acc
      exact ⟨t, h1, h2.cons y⟩
    · have hd : dedupAppend acc y = acc ++ [y] := by unfold dedupAppend; rw [if_neg hy]
      rw [hd]
      obtain ⟨t, h1, h2⟩ := ih (acc ++ [y])
      refine ⟨y :: t, ?_, h2.cons₂ y⟩
      rw [h1, List.append_assoc]
      rfl

theorem firstSeen_nil [DecidableEq β] : firstSeen ([] : List β) = [] := by
  simp [firstSeen]

theorem firstSeen_cons [DecidableEq β] (x : β) (l : List β) :
    firstSeen (x :: l) = x :: firstSeen (l.filter (fun y => y ≠ x)) := by
  simp [firstSeen]

theorem foldl_dedupAppend_firstSeen [DecidableEq β] :
    ∀ (l acc : List β), l.foldl dedupAppend acc = acc ++ firstSeen (l.filter (fun y => y ∉ acc)) := by
  intro l
  induction l with
  | nil => intro acc; simp [firstSeen_nil]
  | cons x rest ih =>
    intro acc
    rw [List.foldl_cons]
    by_cases hx : x ∈ acc
    · have hd : dedupAppend acc x = acc := by unfold dedupAppend; rw [if_pos hx]
      rw [hd, ih acc, List.filter_cons]
      simp [hx]
    · have hd : dedupAppend acc x = acc ++ [x] := by unfold dedupAppend; rw [if_neg hx]
      rw [hd, ih (acc ++ [x]), List.filter_cons]
      have hpx : decide (x ∉ acc) = true := by simpa using hx
      rw [hpx]
      simp only [if_pos]
      rw [firstSeen_cons, List.append_assoc]
      have hfil : rest.filter (fun y => y ∉ acc ++ [x]) =
          (rest.filter (fun y => y ∉ acc)).filter (fun y => y ≠ x) := by
        rw [List.filter_filter]
        apply List.filter_congr
        intro y _
        by_cases h1 : y ∈ acc <;> by_cases h2 : y = x <;>
          simp [h1, h2, List.mem_append]
      rw [hfil]
      rfl

theorem extractFiles_eq_dedup :
    ∀ (caps : List String) (acc : List String),
      caps.foldl (fun acc p => if p = "/dev/null" then acc else dedupAppend acc (basename p)) acc =
      ((caps.filter (fun p => p ≠ "/dev/null")).map basename).foldl dedupAppend acc := by
  intro caps
  induction caps with
  | nil => intro acc; rfl
  | cons p rest ih =>
    intro acc
    by_cases hp : p = "/dev/null"
    · simp [hp, ih]
    · simp [hp, ih]

theorem no_slash_in_basename (p : String) : '/' ∉ (basename p).data := by
  unfold basename
  intro h
  rw [List.mem_reverse] at h
  have h2 := List.mem_takeWhile_imp h
  simp at h2

/-! ## Claim theorems for file and keyword extraction -/

/-- C7: `files` is duplicate-free, excludes "/dev/null", is an
order-preserving sublist of the base names of the non-"/dev/null" header
captures with exactly their membership, and equals `firstSeen` of that
capture sequence — the unique base names listed in first-seen order. -/
theorem C7_files_invariants (d : String) :
    ((analyze d).files).Nodup ∧
    "/dev/null" ∉ (analyze d).files ∧
    ((analyze d).files).Sublist (((fileCaptures d).filter (fun p => p ≠ "/dev/null")).map basename) ∧
    (∀ x, x ∈ (analyze d).files ↔
      x ∈ ((fileCaptures d).filter (fun p => p ≠ "/dev/null")).map basename) ∧
    (analyze d).files =
      firstSeen (((fileCaptures d).filter (fun p => p ≠ "/dev/null")).map basename) := by
  have hfe : (analyze d).files =
      (((fileCaptures d).filter (fun p => p ≠ "/dev/null")).map basename).foldl dedupAppend [] := by
    simp only [analyze]
    exact extractFiles_eq_dedup (fileCaptures d) []
  have hmem : ∀ x, x ∈ (analyze d).files ↔
      x ∈ ((fileCaptures d).filter (fun p => p ≠ "/dev/null")).map basename := by
    intro x
    rw [hfe, mem_foldl_dedupAppend]
    simp
  refine ⟨?_, ?_, ?_, hmem, ?_⟩
  · rw [hfe]
    exact nodup_foldl_dedupAppend _ [] List.nodup_nil
  · intro h
    rw [hmem] at h
    rw [List.mem_map] at h
    obtain ⟨p, _, hp⟩ := h
    have h2 := no_slash_in_basename p
    rw [hp] at h2
    exact h2 (by decide)
  · obtain ⟨t, h1, h2⟩ := foldl_dedupAppend_extend
      (((fileCaptures d).filter (fun p => p ≠ "/dev/null")).map basename) []
    rw [hfe, h1]
    simpa using h2
  · rw [hfe, foldl_dedupAppend_firstSeen]
    simp

theorem keyword_sources_shape (d : String) :
    ∀ x ∈ kwFromFiles (extractFiles d) ++ kwFromDecls d ++ kwFromAdded d,
      (∃ y, x = lowerL y) ∧ 3 ≤ x.length := by
  intro x hx
  rw [List.mem_append] at hx
  rcases hx with hx | hx
  · rw [List.mem_append] at hx
    rcases hx with hx | hx
    · unfold kwFromFiles at hx
      rw [List.mem_flatMap] at hx
      obtain ⟨f, _, hf⟩ := hx
      rw [List.mem_map] at hf
      obtain ⟨p, hp, rfl⟩ := hf
      rw [List.mem_filter] at hp
      refine ⟨⟨p, rfl⟩, ?_⟩
      have hlen := hp.2
      rw [decide_eq_true_iff] at hlen
      simp only [lowerL, List.length_map]
      omega
    · unfold kwFromDecls at hx
      rw [List.mem_map] at hx
      obtain ⟨p, hp, rfl⟩ := hx
      rw [List.mem_filter] at hp
      refine ⟨⟨p, rfl⟩, ?_⟩
      have hlen := hp.2
      rw [decide_eq_true_iff] at hlen
      simp only [lowerL, List.length_map]
      omega
  · unfold kwFromAdded at hx
    rw [List.mem_flatMap] at hx
    obtain ⟨l, _, hl⟩ := hx
    rw [List.mem_map] at hl
    obtain ⟨p, hp, rfl⟩ := hl
    have hp2 : p ∈ identsOf l := List.mem_of_mem_take hp
    unfold identsOf at hp2
    rw [List.mem_filter] at hp2
    refine ⟨⟨p, rfl⟩, ?_⟩
    have hlen := hp2.2
    rw [Bool.and_eq_true] at hlen
    have hlen2 := hlen.1
    rw [decide_eq_true_iff] at hlen2
    simp only [lowerL, List.length_map]
    omega

/-- C8: `keywords` has at most 10 elements, no duplicates, and every
element is free of upper-case ASCII letters. -/
theorem C8_keywords_invariants (d : String) :
    ((analyze d).keywords).length ≤ 10 ∧
    ((analyze d).keywords).Nodup ∧
    ∀ k ∈ (analyze d).keywords, ∀ c ∈ k.data, isUpperAlpha c = false := by
  have hinj : Function.Injective String.mk := fun a b h => by injection h
  refine ⟨?_, ?_, ?_⟩
  · simp only [analyze, extractKeywords, List.length_map]
    have := List.length_take_le 10
      (dedupFirstSeen (kwFromFiles (extractFiles d) ++ kwFromDecls d ++ kwFromAdded d))
    omega
  · simp only [analyze, extractKeywords]
    apply List.Nodup.map hinj
    apply List.Nodup.sublist (List.take_sublist _ _)
    exact nodup_foldl_dedupAppend _ [] List.nodup_nil
  · intro k hk c hc
    simp only [analyze, extractKeywords] at hk
    rw [List.mem_map] at hk
    obtain ⟨l, hl, rfl⟩ := hk
    have hl2 : l ∈ dedupFirstSeen
        (kwFromFiles (extractFiles d) ++ kwFromDecls d ++ kwFromAdded d) :=
      List.mem_of_mem_take hl
    unfold dedupFirstSeen at hl2
    rw [mem_foldl_dedupAppend] at hl2
    rcases hl2 with h | h
    · cases h
    · obtain ⟨⟨y, rfl⟩, _⟩ := keyword_sources_shape d l h
      simp only [String.mk] at hc
      unfold lowerL at hc
      rw [List.mem_map] at hc
      obtain ⟨c0, _, rfl⟩ := hc
      exact isUpperAlpha_lowerChar c0

/-- Witness for C8 on a concrete diff. -/
theorem C8_witness :
    ((analyze "+new foo_bar stuff\n").keywords).length ≤ 10 ∧ isUpperAlpha 'n' = false :=
  ⟨(C8_keywords_invariants "+new foo_bar stuff\n").1,
   (C8_keywords_invariants "+new foo_bar stuff\n").2.2 "new" (by decide) 'n' (by decide)⟩

/-- C10: every extracted keyword has length at least 3. -/
theorem C10_keyword_min_length (d : String) :
    ∀ k ∈ (analyze d).keywords, 3 ≤ k.length := by
  intro k hk
  simp only [analyze, extractKeywords] at hk
  rw [List.mem_map] at hk
  obtain ⟨l, hl, rfl⟩ := hk
  have hl2 : l ∈ dedupFirstSeen
      (kwFromFiles (extractFiles d) ++ kwFromDecls d ++ kwFromAdded d) :=
    List.mem_of_mem_take hl
  unfold dedupFirstSeen at hl2
  rw [mem_foldl_dedupAppend] at hl2
  rcases hl2 with h | h
  · cases h
  · have := (keyword_sources_shape d l h).2
    simpa [String.length] using this

/-- Witness for C10 on a concrete diff and keyword. -/
theorem C10_witness :
    ("foobar" ∈ (analyze "+let foobar = 1\n").keywords) ∧ 3 ≤ ("foobar" : String).length :=
  ⟨by decide, C10_keyword_min_length "+let foobar = 1\n" "foobar" (by decide)⟩

/-! ## Lemmas: the syllable-adjustment step and newline-freeness -/

theorem strData_append (a b : String) : (a ++ b).data = a.data ++ b.data := by
  cases a
  cases b
  rfl

theorem nlFree_append {a b : String} (ha : nlFree a) (hb : nlFree b) : nlFree (a ++ b) := by
  unfold nlFree at *
  rw [strData_append, List.mem_append]
  rintro (h | h)
  · exact ha h
  · exact hb h

theorem countPhrase_empty (cd : List (String × Int)) : countPhrase cd "" = 0 := rfl

theorem adjust_le_countPhrase (cd : List (String × Int)) (line : String) (target : Int)
    (l' : String) (h : adjustSyllables cd line target = some l') :
    target - 1 ≤ countPhrase cd l' := by
  unfold adjustSyllables at h
  dsimp only at h
  split_ifs at h with h1 h2 h3 h4 h5 h6
  · cases h; omega
  · cases h; omega
  · cases h; omega
  · have h54 := h5.2.2.2
    cases h; omega
  · cases h; omega

theorem mem_replaceAllF (pat rep : List Char) :
    ∀ (fuel : Nat) (l : List Char) (c : Char),
      c ∈ replaceAllF pat rep fuel l → c ∈ rep ∨ c ∈ l := by
  intro fuel
  induction fuel with
  | zero => intro l c h; exact Or.inr h
  | succ n ih =>
    intro l c h
    match l with
    | [] => cases h
    | x :: rest =>
      rw [replaceAllF] at h
      split at h
      · rw [List.mem_append] at h
        rcases h with h | h
        · exact Or.inl h
        · rcases ih _ c h with h2 | h2
          · exact Or.inl h2
          · exact Or.inr ((List.drop_sublist _ _).mem h2)
      · rw [List.mem_cons] at h
        rcases h with rfl | h
        · exact Or.inr (List.mem_cons_self _ _)
        · rcases ih _ c h with h2 | h2
          · exact Or.inl h2
          · exact Or.inr (List.mem_cons_of_mem _ h2)

theorem nlFree_strReplace (s pat rep : String)
    (hs : nlFree s) (hr : nlFree rep) : nlFree (strReplace s pat rep) := by
  unfold nlFree strReplace replaceAllL at *
  intro h
  rcases mem_replaceAllF pat.data rep.data _ _ _ h with h2 | h2
  · exact hr h2
  · exact hs h2

theorem nl_not_mem_collapseWsF : ∀ (fuel : Nat) (l : List Char), '\n' ∉ collapseWsF fuel l := by
  intro fuel
  induction fuel with
  | zero => intro l; simp [collapseWsF]
  | succ n ih =>
    intro l
    match l with
    | [] => simp [collapseWsF]
    | c :: rest =>
      rw [collapseWsF]
      split
      · intro h
        rw [List.mem_cons] at h
        rcases h with h | h
        · cases h
        · exact ih _ h
      · rename_i hc
        intro h
        rw [List.mem_cons] at h
        rcases h with h | h
        · rw [← h] at hc
          exact hc (by decide)
        · exact ih _ h

theorem mem_pyStrip {l : List Char} {c : Char} (h : c ∈ pyStrip l) : c ∈ l := by
  unfold pyStrip at h
  rw [List.mem_reverse] at h
  have h2 := (List.dropWhile_sublist _).mem h
  rw [List.mem_reverse] at h2
  exact (List.dropWhile_sublist _).mem h2

theorem nlFree_removeArticle (line : String) (h : nlFree line) : nlFree (removeArticle line) := by
  unfold removeArticle
  split_ifs <;>
    first
    | exact h
    | (intro hmem
       exact nl_not_mem_collapseWsF _ _ (mem_pyStrip hmem))

theorem nlFree_adjust {cd : List (String × Int)} {line : String} {target : Int} {l' : String}
    (h : nlFree line) (ha : adjustSyllables cd line target = some l') : nlFree l' := by
  unfold adjustSyllables at ha
  dsimp only at ha
  split_ifs at ha
  · cases ha; exact h
  · cases ha; exact nlFree_removeArticle line h
  · cases ha; exact nlFree_removeArticle line h
  · cases ha; exact nlFree_append h (by decide)
  · cases ha; exact h

theorem adjust_ne_empty {cd : List (String × Int)} {line : String} {target : Int} {l' : String}
    (ht : 2 ≤ target) (ha : adjustSyllables cd line target = some l') : l' ≠ "" := by
  intro hcontra
  have h1 := adjust_le_countPhrase cd line target l' ha
  rw [hcontra, countPhrase_empty] at h1
  omega

/-! ## Lemmas: template filling and the haiku builders -/

theorem nlFree_fillLine {kw1 kw2 fb line : String}
    (h1 : nlFree kw1) (h2 : nlFree kw2) (h3 : nlFree fb) (hl : nlFree line) :
    nlFree (fillLine kw1 kw2 fb line) := by
  simp only [fillLine, substitutions, List.foldl_cons, List.foldl_nil]
  refine nlFree_strReplace _ _ _ ?_ h3
  refine nlFree_strReplace _ _ _ ?_ (by decide)
  refine nlFree_strReplace _ _ _ ?_ (nlFree_append (nlFree_append h2 (by decide)) h3)
  refine nlFree_strReplace _ _ _ ?_ h1
  refine nlFree_strReplace _ _ _ ?_ (by decide)
  refine nlFree_strReplace _ _ _ ?_ (nlFree_append (by decide) h2)
  exact nlFree_strReplace _ _ _ hl (nlFree_append h1 (by decide))

theorem tryTemplate_good {cd : List (String × Int)} {t : String × String × String}
    {kw1 kw2 fb : String} {ls : List String}
    (ht1 : nlFree t.1) (ht2 : nlFree t.2.1) (ht3 : nlFree t.2.2)
    (h1 : nlFree kw1) (h2 : nlFree kw2) (h3 : nlFree fb)
    (h : tryTemplate cd t kw1 kw2 fb = some ls) :
    ∃ a b c, ls = [a, b, c] ∧
      (a ≠ "" ∧ nlFree a) ∧ (b ≠ "" ∧ nlFree b) ∧ (c ≠ "" ∧ nlFree c) := by
  unfold tryTemplate at h
  cases ha : adjustSyllables cd (fillLine kw1 kw2 fb t.1) 5 with
  | none => rw [ha] at h; cases h
  | some a =>
    rw [ha] at h
    cases hb : adjustSyllables cd (fillLine kw1 kw2 fb t.2.1) 7 with
    | none => rw [hb] at h; cases h
    | some b =>
      rw [hb] at h
      cases hc : adjustSyllables cd (fillLine kw1 kw2 fb t.2.2) 5 with
      | none => rw [hc] at h; cases h
      | some c =>
        rw [hc] at h
        injection h with h
        refine ⟨a, b, c, h.symm, ?_, ?_, ?_⟩
        · exact ⟨adjust_ne_empty (by decide) ha,
            nlFree_adjust (nlFree_fillLine h1 h2 h3 ht1) ha⟩
        · exact ⟨adjust_ne_empty (by decide) hb,
            nlFree_adjust (nlFree_fillLine h1 h2 h3 ht2) hb⟩
        · exact ⟨adjust_ne_empty (by decide) hc,
            nlFree_adjust (nlFree_fillLine h1 h2 h3 ht3) hc⟩

theorem templatesFor_nlFree (intent : String) :
    ∀ t ∈ templatesFor intent, nlFree t.1 ∧ nlFree t.2.1 ∧ nlFree t.2.2 := by
  unfold templatesFor
  split_ifs <;> decide

theorem exists_of_findSomeEq {α β : Type} {f : α → Option β} :
    ∀ {l : List α} {b : β}, l.findSome? f = some b → ∃ a ∈ l, f a = some b := by
  intro l
  induction l with
  | nil => intro b h; cases h
  | cons x rest ih =>
    intro b h
    rw [List.findSome?_cons] at h
    cases hx : f x with
    | some v =>
      rw [hx] at h
      injection h with h
      exact ⟨x, List.mem_cons_self _ _, by rw [hx, h]⟩
    | none =>
      rw [hx] at h
      obtain ⟨a, hmem, hfa⟩ := ih h
      exact ⟨a, List.mem_cons_of_mem _ hmem, hfa⟩

theorem orDefault_good (cd : List (String × Int)) (line d : String) (t : Int)
    (hl : nlFree line) (hd : nlFree d) (hd' : d ≠ "") :
    orDefault (adjustSyllables cd line t) d ≠ "" ∧
    nlFree (orDefault (adjustSyllables cd line t) d) := by
  cases h : adjustSyllables cd line t with
  | none => exact ⟨hd', hd⟩
  | some l' =>
    by_cases he : l' = ""
    · simp only [orDefault, he, if_pos]
      exact ⟨hd', hd⟩
    · simp only [orDefault, if_neg he]
      exact ⟨he, nlFree_adjust hl h⟩

theorem simpleHaiku_good (cd : List (String × Int)) (intent subject keyword : String)
    (hs : nlFree subject) (hk : nlFree keyword) :
    ∃ a b c, simpleHaiku cd intent subject keyword = [a, b, c] ∧
      (a ≠ "" ∧ nlFree a) ∧ (b ≠ "" ∧ nlFree b) ∧ (c ≠ "" ∧ nlFree c) := by
  unfold simpleHaiku
  split_ifs <;> dsimp only
  · exact ⟨_, _, _, rfl,
      orDefault_good cd _ _ 5 (by decide) (by decide) (by decide),
      orDefault_good cd _ _ 7
        (nlFree_append (nlFree_append (nlFree_append (by decide) hk) (by decide)) hs)
        (by decide) (by decide),
      orDefault_good cd _ _ 5 (by decide) (by decide) (by decide)⟩
  · exact ⟨_, _, _, rfl,
      orDefault_good cd _ _ 5 (nlFree_append (by decide) hk) (by decide) (by decide),
      orDefault_good cd _ _ 7
        (nlFree_append (nlFree_append (by decide) hs) (by decide)) (by decide) (by decide),
      orDefault_good cd _ _ 5 (by decide) (by decide) (by decide)⟩
  · exact ⟨_, _, _, rfl,
      orDefault_good cd _ _ 5 (by decide) (by decide) (by decide),
      orDefault_good cd _ _ 7 (nlFree_append (by decide) hs) (by decide) (by decide),
      orDefault_good cd _ _ 5 (by decide) (by decide) (by decide)⟩
  · exact ⟨_, _, _, rfl,
      orDefault_good cd _ _ 5 (by decide) (by decide) (by decide),
      orDefault_good cd _ _ 7
        (nlFree_append (nlFree_append (by decide) hs) (by decide)) (by decide) (by decide),
      orDefault_good cd _ _ 5 (by decide) (by decide) (by decide)⟩
  · exact ⟨_, _, _, rfl,
      orDefault_good cd _ _ 5 (by decide) (by decide) (by decide),
      orDefault_good cd _ _ 7
        (nlFree_append (nlFree_append (by decide) hs) (by decide)) (by decide) (by decide),
      orDefault_good cd _ _ 5 (by decide) (by decide) (by decide)⟩
  · exact ⟨_, _, _, rfl,
      orDefault_good cd _ _ 5 (by decide) (by decide) (by decide),
      orDefault_good cd _ _ 7
        (nlFree_append (nlFree_append (by decide) hs) (by decide)) (by decide) (by decide),
      orDefault_good cd _ _ 5 (by decide) (by decide) (by decide)⟩
  · exact ⟨_, _, _, rfl,
      orDefault_good cd _ _ 5 (by decide) (by decide) (by decide),
      orDefault_good cd _ _ 7 (nlFree_append (by decide) hs) (by decide) (by decide),
      orDefault_good cd _ _ 5 (by decide) (by decide) (by decide)⟩

theorem nlFree_firstOr (l : List String) (d : String)
    (hl : ∀ x ∈ l, nlFree x) (hd : nlFree d) : nlFree (firstOr l d) := by
  cases l with
  | nil => exact hd
  | cons x rest => exact hl x (List.mem_cons_self _ _)

theorem nlFree_secondOr (l : List String) (d : String)
    (hl : ∀ x ∈ l, nlFree x) (hd : nlFree d) : nlFree (secondOr l d) := by
  cases l with
  | nil => exact hd
  | cons x rest =>
    cases rest with
    | nil => exact hd
    | cons y rest2 => exact hl y (List.mem_cons_of_mem _ (List.mem_cons_self _ _))

theorem nlFree_splitextBase (s : String) (h : nlFree s) : nlFree (splitextBase s) := by
  unfold splitextBase
  dsimp only
  cases hd : lastIdxOf '.' s.data with
  | none => exact h
  | some di =>
    dsimp only
    split_ifs
    · unfold nlFree at *
      intro hmem
      exact h ((List.take_sublist _ _).mem hmem)
    · exact h

theorem nlFree_fileBaseOf (files : List String) (hf : ∀ f ∈ files, nlFree f) :
    nlFree (fileBaseOf files) := by
  cases files with
  | nil => decide
  | cons f rest => exact nlFree_splitextBase f (hf f (List.mem_cons_self _ _))

theorem buildHaiku_good (cd : List (String × Int)) (intent : String)
    (files keywords : List String)
    (hf : ∀ f ∈ files, nlFree f) (hk : ∀ k ∈ keywords, nlFree k) :
    ∃ a b c, buildHaiku cd intent files keywords = [a, b, c] ∧
      (a ≠ "" ∧ nlFree a) ∧ (b ≠ "" ∧ nlFree b) ∧ (c ≠ "" ∧ nlFree c) := by
  have hkw1 : nlFree (firstOr keywords "change") := nlFree_firstOr _ _ hk (by decide)
  have hkw2 : nlFree (secondOr keywords "update") := nlFree_secondOr _ _ hk (by decide)
  have hfb : nlFree (fileBaseOf files) := nlFree_fileBaseOf _ hf
  unfold buildHaiku
  dsimp only
  cases hfs : (templatesFor intent).findSome?
      (fun t => tryTemplate cd t (firstOr keywords "change") (secondOr keywords "update")
        (fileBaseOf files)) with
  | some ls =>
    obtain ⟨t, htmem, htl⟩ := exists_of_findSomeEq hfs
    obtain ⟨h1, h2, h3⟩ := templatesFor_nlFree intent t htmem
    exact tryTemplate_good h1 h2 h3 hkw1 hkw2 hfb htl
  | none =>
    exact simpleHaiku_good cd intent _ _ hfb hkw1

/-! ## Claim theorems for the generator -/

/-- C3 counterexample: on the empty line with target 1, the source keeps
the empty line (the `len(line.split()) > 0` guard blocks the " now"
append), while the procedure exactly as the claim words it would append
" now" and return it. -/
theorem C3_cex :
    adjustSyllables [] "" 1 = some "" ∧ adjustSpec [] "" 1 = some " now" ∧
    adjustSyllables [] "" 1 ≠ adjustSpec [] "" 1 := by decide

/-- C3 (amended): the adjustment procedure behaves exactly as the claim
describes once the append step is additionally guarded by the line
containing at least one non-whitespace character. -/
theorem C3_adjust_behaviour (cd : List (String × Int)) (line : String) (target : Int) :
    adjustSyllables cd line target = adjustSpecAmended cd line target := by
  unfold adjustSyllables adjustSpecAmended
  dsimp only
  split_ifs <;> first | rfl | omega

/-- C1 counterexample: on an analysis record whose keyword contains a
newline the generated text has 4 newline-separated lines, not 3. -/
theorem C1_cex :
    (splitNlS (generate [] ⟨"feature", [], ["happy\npeople"]⟩)).length = 4 := by decide

/-- C1 (amended to newline-free file names and keywords): `generate`
returns three newline-joined lines, each non-empty and newline-free, so
the result has exactly two newline characters; this holds for every
intent string, empty lists included, and every override dictionary. -/
theorem C1_generate_shape (cd : List (String × Int)) (a : AnalysisRecord)
    (hf : ∀ f ∈ a.files, nlFree f) (hk : ∀ k ∈ a.keywords, nlFree k) :
    (haikuLines cd a).length = 3 ∧
    (∀ l ∈ haikuLines cd a, l ≠ "" ∧ nlFree l) ∧
    generate cd a = joinNl (haikuLines cd a) ∧
    (generate cd a).data.count '\n' = 2 := by
  obtain ⟨x, y, z, hl, hx, hy, hz⟩ := buildHaiku_good cd a.intent a.files a.keywords hf hk
  have hlines : haikuLines cd a = [x, y, z] := hl
  refine ⟨by rw [hlines]; rfl, ?_, rfl, ?_⟩
  · intro l hmem
    rw [hlines] at hmem
    rcases List.mem_cons.mp hmem with rfl | hmem2
    · exact hx
    rcases List.mem_cons.mp hmem2 with rfl | hmem3
    · exact hy
    rcases List.mem_cons.mp hmem3 with rfl | hmem4
    · exact hz
    cases hmem4
  · have hj : generate cd a = x ++ "\n" ++ (y ++ "\n" ++ z) := by
      unfold generate
      rw [hlines]
      rfl
    rw [hj]
    simp only [strData_append, List.count_append]
    have cx : x.data.count '\n' = 0 := List.count_eq_zero.mpr hx.2
    have cy : y.data.count '\n' = 0 := List.count_eq_zero.mpr hy.2
    have cz : z.data.count '\n' = 0 := List.count_eq_zero.mpr hz.2
    rw [cx, cy, cz]
    rfl

/-- Witness for C1 at a concrete record with an unknown intent. -/
theorem C1_witness :
    (haikuLines [] ⟨"weird", [], []⟩).length = 3 ∧
    (generate [] ⟨"weird", [], []⟩).data.count '\n' = 2 :=
  ⟨(C1_generate_shape [] ⟨"weird", [], []⟩ (by simp) (by simp)).1,
   (C1_generate_shape [] ⟨"weird", [], []⟩ (by simp) (by simp)).2.2.2⟩

end Haikommit
